import Mathlib

/-!
Verification of the dynamic-array container in src/advanced-vector/vector.h.

The container is a pair of a raw buffer (RawMemory, carrying only a capacity)
and a logical size; slots [0, size) hold live elements, slots [size, capacity)
are raw. We embed a vector state as the list of its live elements together
with the capacity of its buffer; the list length is the size. Each public
operation of the source is translated to a function on this state. For the
exception-safety analysis of the reallocating Emplace branch, a second model
tracks the liveness of each slot of the old buffer and threads a budget of
successful element copies, so that a failing copy of the probe-type kind can
be expressed.
-/

namespace AdvancedVector

/-- State of a Vector: live elements (slots [0, size)) and buffer capacity. -/
structure Vec (α : Type) where
  elems : List α
  cap : Nat
deriving Repr, DecidableEq

namespace Vec

variable {α : Type}

/-- Size() accessor: number of live elements. -/
def size (v : Vec α) : Nat := v.elems.length

/-- The state invariant of the container: the live count never exceeds the
buffer capacity. The liveness of slots [0, size) and rawness of slots
[size, cap) are represented by the state itself: elems lists exactly the
live slots in order. -/
def Wf (v : Vec α) : Prop := v.size ≤ v.cap

instance (v : Vec α) : Decidable v.Wf := Nat.decLe _ _

/-- Default constructor: size 0, capacity 0 (RawMemory default is null, 0). -/
def mk0 : Vec α := ⟨[], 0⟩

/-- Vector(size_t size): allocates capacity size and value-constructs size
elements; d is the value-initialized element of the type. -/
def mkSized (d : α) (n : Nat) : Vec α := ⟨List.replicate n d, n⟩

/-- Vector(const Vector&): allocates capacity other.size and copy-constructs
each element. -/
def copyConstruct (other : Vec α) : Vec α := ⟨other.elems, other.size⟩

/-- Vector(Vector&&): default-constructs this and swaps with other. The first
component is the new vector, the second is the moved-from source. -/
def moveConstruct (other : Vec α) : Vec α × Vec α := (other, mk0)

/-- Reserve(new_capacity): no-op when new_capacity is at most the current
capacity; otherwise relocates into a fresh buffer of exactly new_capacity. -/
def reserve (v : Vec α) (newCap : Nat) : Vec α :=
  if newCap ≤ v.cap then v else ⟨v.elems, newCap⟩

/-- Resize(new_size): shrinking destroys the trailing elements; otherwise
Reserve(new_size) and value-construct the new tail (d is the
value-initialized element). -/
def resize (d : α) (v : Vec α) (newSize : Nat) : Vec α :=
  if newSize < v.size then ⟨v.elems.take newSize, v.cap⟩
  else ⟨(reserve v newSize).elems ++ List.replicate (newSize - v.size) d,
        (reserve v newSize).cap⟩

/-- Emplace(pos, args) where p = pos - begin(). When the buffer is full the
new capacity is 1 from size 0 and twice the size otherwise, and elements are
relocated around the new one; with spare capacity the tail is shifted one
slot toward the end (or the element is constructed at the end when p = size).
Both branches place x at index p with the elements at indices at least p
shifted one slot later. -/
def emplace (v : Vec α) (p : Nat) (x : α) : Vec α :=
  if v.size ≥ v.cap then
    ⟨v.elems.take p ++ x :: v.elems.drop p, if v.size = 0 then 1 else v.size * 2⟩
  else
    ⟨v.elems.take p ++ x :: v.elems.drop p, v.cap⟩

/-- Emplace together with its return value begin() + new_pos, modelled as the
index of the inserted element. -/
def emplaceRet (v : Vec α) (p : Nat) (x : α) : Vec α × Nat :=
  (emplace v p x, p)

/-- Insert(pos, value): delegates to Emplace. -/
def insert (v : Vec α) (p : Nat) (x : α) : Vec α := emplace v p x

/-- PopBack(): destroys the last element when the vector is non-empty. -/
def popBack (v : Vec α) : Vec α :=
  if 0 < v.size then ⟨v.elems.dropLast, v.cap⟩ else v

/-- Erase(pos) where p = pos - begin(): move-assigns the range (p, size) one
slot down, then PopBack destroys the vacated last slot. Net effect on the
live elements: the element at p is removed. -/
def erase (v : Vec α) (p : Nat) : Vec α :=
  ⟨v.elems.take p ++ v.elems.drop (p + 1), v.cap⟩

/-- EmplaceBack/PushBack: Emplace at end(). -/
def pushBack (v : Vec α) (x : α) : Vec α := emplace v v.size x

/-- Swap(other): exchanges buffers and sizes. -/
def swap (a b : Vec α) : Vec α × Vec α := (b, a)

/-- Copy assignment. The aliased flag models the pointer test this == &rhs.
When rhs.size exceeds the capacity: copy-and-swap with a fresh copy of rhs.
Otherwise: copy-assign over the common prefix, then destroy the surplus tail
(rhs smaller) or copy-construct the missing tail (rhs larger), in place. -/
def copyAssign (aliased : Bool) (a b : Vec α) : Vec α :=
  if aliased then a
  else if b.size > a.cap then copyConstruct b
  else if b.size < a.size then ⟨b.elems, a.cap⟩
  else ⟨b.elems, a.cap⟩

/-- Move assignment: swaps with rhs unless aliased. First component is this
after the assignment, second is rhs after it. -/
def moveAssign (aliased : Bool) (a b : Vec α) : Vec α × Vec α :=
  if aliased then (a, b) else (b, a)

/-- Number of element copy operations (copy-constructions or
copy-assignments of the element type) performed by the copy constructor:
one per element of the source. -/
def copyConstructCopies (other : Vec α) : Nat := other.size

/-- Number of element copy operations performed by the move constructor: it
only swaps buffer pointers and sizes, touching no element. -/
def moveConstructCopies (_other : Vec α) : Nat := 0

/-- Number of element copy operations performed by the move assignment: it
only swaps buffer pointers and sizes, touching no element. -/
def moveAssignCopies (_aliased : Bool) (_a _b : Vec α) : Nat := 0

/-- Repeated PushBack of x starting from the default-constructed vector. -/
def pushN (x : α) : Nat → Vec α
  | 0 => mk0
  | n + 1 => pushBack (pushN x n) x

end Vec

/-!
Failure-aware model of the reallocating branch of Emplace.

Slots of the old buffer are tracked individually: some x means the slot holds
a live element of value x, none means the slot has been destroyed. Element
copies can fail, in the style of a probe type whose Nth copy operation
throws: a budget counts the copies that still succeed, each successful copy
consumes one unit, and a copy attempted with budget 0 fails.
-/

/-- Slot states of the old buffer: some x is a live element, none is raw or
destroyed storage. -/
abbrev Buf (α : Type) := List (Option α)

/-- Models std::destroy_n(buf + start, n): slots [start, start + n) are
destroyed. -/
def destroyN (b : Buf α) (start n : Nat) : Buf α :=
  (List.range n).foldl (fun l i => l.set (start + i) none) b

/-- Models CopyOrMoveElements(old + start, dst, n) under a copy budget: the
uninitialized copy of n elements succeeds when at least n copies remain in
the budget, and then std::destroy_n destroys the n source slots; if a copy
throws, the copies already constructed in the destination are rolled back by
the standard algorithm, the source slots are untouched by this call, and the
failure propagates carrying the old-buffer state at that moment. -/
def copyOrMoveElementsF (b : Buf α) (start n budget : Nat) :
    Except (Buf α) (Buf α × Nat) :=
  if n ≤ budget then Except.ok (destroyN b start n, budget - n)
  else Except.error b

/-- Models the reallocating branch of Emplace (size equals capacity) on an
old buffer b of size b.length, inserting at index p, with a copy budget. The
new element is constructed into the new buffer first; then the prefix [0, p)
is relocated, then the suffix [p, size). On a relocation failure the catch
clause destroys the already-constructed new element and rethrows; the error
value is the slot state of the old buffer, which the vector still owns, at
that moment. On success the old buffer has been fully destroyed and the new
buffer is committed by Swap. -/
def emplaceReallocF (b : Buf α) (p budget : Nat) : Except (Buf α) (Buf α) :=
  match copyOrMoveElementsF b 0 p budget with
  | Except.error o => Except.error o
  | Except.ok (o1, b1) =>
    match copyOrMoveElementsF o1 p (b.length - p) b1 with
    | Except.error o2 => Except.error o2
    | Except.ok (o2, _) => Except.ok o2

/-! Helper lemmas shared by the claim theorems. -/

/-- Length of the list produced by inserting at index p. -/
lemma length_insertAt (l : List α) (p : Nat) (x : α) :
    (l.take p ++ x :: l.drop p).length = l.length + 1 := by
  simp [List.length_take, List.length_drop]
  omega

/-- The two branches of Emplace produce the same live elements. -/
lemma emplace_elems (v : Vec α) (p : Nat) (x : α) :
    (Vec.emplace v p x).elems = v.elems.take p ++ x :: v.elems.drop p := by
  unfold Vec.emplace
  split <;> rfl

/-- C1 evaluation: with the probe element type whose second copy operation
fails, a reallocating Emplace at position 1 of a two-element vector at full
capacity fails while relocating the suffix. The failure is re-signalled, but
the old buffer is not left unchanged: its slot 0 was already destroyed when
the prefix segment was relocated, because CopyOrMoveElements destroys its
source slots before the suffix segment is relocated. A failure during the
prefix relocation (budget 0) does leave the old buffer untouched, shown by
the last conjunct for contrast. -/
theorem emplace_realloc_failure_not_strong :
    emplaceReallocF [some 10, some 20] 1 1 = Except.error [none, some 20] ∧
    ([none, some 20] : Buf Nat) ≠ [some 10, some 20] ∧
    emplaceReallocF [some 10, some 20] 1 0 = Except.error [some 10, some 20] :=
  ⟨rfl, by decide, rfl⟩

/-- C2 counterexample: move assignment is swap-based, so after a = move(x)
with a non-empty destination a, x.Size() is not 0: here a holds one element
and x ends up holding it. -/
theorem moveAssign_source_not_emptied :
    ((Vec.moveAssign false (⟨[10], 1⟩ : Vec Nat) ⟨[20], 1⟩).2).size ≠ 0 := by
  decide

/-- C2 (amended): after a move construct from x, x has size 0 and the
destination holds the prior contents of x; after a move assign, destination
and source exchange contents, so the source ends with size 0 exactly when
the destination was empty; neither operation performs element copies. -/
theorem move_semantics (other a b : Vec α) :
    (Vec.moveConstruct other).1 = other ∧
    (Vec.moveConstruct other).2.size = 0 ∧
    Vec.moveAssign false a b = (b, a) ∧
    (a.size = 0 → ((Vec.moveAssign false a b).2).size = 0) ∧
    Vec.moveConstructCopies other = 0 ∧
    Vec.moveAssignCopies false a b = 0 := by
  refine ⟨rfl, rfl, rfl, ?_, rfl, rfl⟩
  intro h
  simpa [Vec.moveAssign] using h

/-- C2 witness: the amended claim at concrete inputs. -/
theorem move_semantics_witness :
    (Vec.moveConstruct (⟨[3, 4], 2⟩ : Vec Nat)).2.size = 0 ∧
    ((Vec.moveAssign false (⟨[], 0⟩ : Vec Nat) ⟨[7], 1⟩).2).size = 0 :=
  ⟨(move_semantics ⟨[3, 4], 2⟩ (⟨[], 0⟩ : Vec Nat) ⟨[7], 1⟩).2.1,
   (move_semantics (⟨[3, 4], 2⟩ : Vec Nat) ⟨[], 0⟩ ⟨[7], 1⟩).2.2.2.1 rfl⟩

/-- C3: a successful Emplace or Insert at position p of a vector of size n,
0 ≤ p ≤ n, places the value at index p, shifts the elements previously at
indices at least p one slot later, increases the size by 1, leaves the other
elements unchanged, and returns the position of the inserted element. -/
theorem emplace_insert_spec (v : Vec α) (p : Nat) (x : α) (hp : p ≤ v.size) :
    (Vec.emplaceRet v p x).2 = p ∧
    Vec.insert v p x = (Vec.emplaceRet v p x).1 ∧
    (Vec.emplace v p x).size = v.size + 1 ∧
    ((Vec.emplace v p x).elems)[p]? = some x ∧
    (∀ i, i < p → ((Vec.emplace v p x).elems)[i]? = v.elems[i]?) ∧
    (∀ i, p ≤ i → i < v.size → ((Vec.emplace v p x).elems)[i + 1]? = v.elems[i]?) := by
  have hsz : p ≤ v.elems.length := hp
  have hlen : (v.elems.take p).length = p := by
    simp [List.length_take]
    omega
  refine ⟨rfl, rfl, ?_, ?_, ?_, ?_⟩
  · show (Vec.emplace v p x).elems.length = v.elems.length + 1
    rw [emplace_elems, length_insertAt]
  · rw [emplace_elems, List.getElem?_append_right hlen.le]
    simp [hlen]
  · intro i hi
    rw [emplace_elems, List.getElem?_append_left (by omega),
      List.getElem?_take_of_lt hi]
  · intro i hip hin
    rw [emplace_elems, List.getElem?_append_right (by omega)]
    have hidx : i + 1 - (v.elems.take p).length = (i - p) + 1 := by omega
    rw [hidx, List.getElem?_cons_succ, List.getElem?_drop]
    congr 1
    omega

/-- C3 witness: inserting 9 at position 1 of the vector [1, 2, 3] with
capacity 4. -/
theorem emplace_insert_spec_witness :
    (Vec.emplaceRet (⟨[1, 2, 3], 4⟩ : Vec Nat) 1 9).2 = 1 ∧
    (Vec.emplace (⟨[1, 2, 3], 4⟩ : Vec Nat) 1 9).size = 4 ∧
    ((Vec.emplace (⟨[1, 2, 3], 4⟩ : Vec Nat) 1 9).elems)[1]? = some 9 :=
  ⟨(emplace_insert_spec (⟨[1, 2, 3], 4⟩ : Vec Nat) 1 9 (by decide)).1,
   (emplace_insert_spec (⟨[1, 2, 3], 4⟩ : Vec Nat) 1 9 (by decide)).2.2.1,
   (emplace_insert_spec (⟨[1, 2, 3], 4⟩ : Vec Nat) 1 9 (by decide)).2.2.2.1⟩

/-- C4: Erase at position p of a non-empty vector, 0 ≤ p < size, removes
exactly the element at index p, shifts the subsequent elements down by one
index preserving their relative order and values, and decreases the size
by 1; the capacity is unchanged. -/
theorem erase_spec (v : Vec α) (p : Nat) (hp : p < v.size) :
    (Vec.erase v p).size = v.size - 1 ∧
    (Vec.erase v p).cap = v.cap ∧
    (∀ i, i < p → ((Vec.erase v p).elems)[i]? = v.elems[i]?) ∧
    (∀ i, p ≤ i → i < v.size - 1 → ((Vec.erase v p).elems)[i]? = v.elems[i + 1]?) := by
  have hsz : p < v.elems.length := hp
  have hlen : (v.elems.take p).length = p := by
    simp [List.length_take]
    omega
  refine ⟨?_, rfl, ?_, ?_⟩
  · show (Vec.erase v p).elems.length = v.elems.length - 1
    simp [Vec.erase, List.length_take, List.length_drop]
    omega
  · intro i hi
    show (v.elems.take p ++ v.elems.drop (p + 1))[i]? = v.elems[i]?
    rw [List.getElem?_append_left (by omega), List.getElem?_take_of_lt hi]
  · intro i hip hin
    show (v.elems.take p ++ v.elems.drop (p + 1))[i]? = v.elems[i + 1]?
    rw [List.getElem?_append_right (by omega), List.getElem?_drop]
    congr 1
    omega

/-- C4 witness: erasing position 1 of the vector [1, 2, 3]. -/
theorem erase_spec_witness :
    (Vec.erase (⟨[1, 2, 3], 4⟩ : Vec Nat) 1).size = 2 ∧
    ((Vec.erase (⟨[1, 2, 3], 4⟩ : Vec Nat) 1).elems)[1]? = some 3 :=
  ⟨(erase_spec (⟨[1, 2, 3], 4⟩ : Vec Nat) 1 (by decide)).1,
   (erase_spec (⟨[1, 2, 3], 4⟩ : Vec Nat) 1 (by decide)).2.2.2 1 (by decide) (by decide)⟩

/-- A PushBack appends the new element after the existing ones. -/
lemma pushBack_elems (v : Vec α) (x : α) :
    (Vec.pushBack v x).elems = v.elems ++ [x] := by
  unfold Vec.pushBack
  rw [emplace_elems]
  simp [Vec.size]

/-- Capacity after a PushBack on a full buffer. -/
lemma pushBack_cap_full (v : Vec α) (x : α) (h : v.cap ≤ v.size) :
    (Vec.pushBack v x).cap = if v.size = 0 then 1 else v.size * 2 := by
  unfold Vec.pushBack Vec.emplace
  rw [if_pos h]

/-- Capacity after a PushBack with spare capacity. -/
lemma pushBack_cap_spare (v : Vec α) (x : α) (h : v.size < v.cap) :
    (Vec.pushBack v x).cap = v.cap := by
  unfold Vec.pushBack Vec.emplace
  rw [if_neg (by omega)]

/-- Invariant of the PushBack sequence from the default-constructed vector:
the elements are the pushed values in order, and from the first push onward
the capacity is a power of two between the size and twice the size minus
one. -/
lemma pushN_invariant (x : α) (n : Nat) :
    (Vec.pushN x n).elems = List.replicate n x ∧
    (Vec.pushN x n).cap = 0 ∧ n = 0 ∨
    (Vec.pushN x n).elems = List.replicate n x ∧
    1 ≤ n ∧ n ≤ (Vec.pushN x n).cap ∧ (Vec.pushN x n).cap ≤ 2 * n - 1 ∧
    ∃ k, (Vec.pushN x n).cap = 2 ^ k := by
  induction n with
  | zero => exact Or.inl ⟨rfl, rfl, rfl⟩
  | succ n ih =>
    have he : (Vec.pushN x n).elems = List.replicate n x := by
      rcases ih with ⟨h, _⟩ | ⟨h, _⟩ <;> exact h
    have hsize : (Vec.pushN x n).size = n := by
      simp [Vec.size, he]
    have helems : (Vec.pushN x (n + 1)).elems = List.replicate (n + 1) x := by
      show (Vec.pushBack (Vec.pushN x n) x).elems = _
      rw [pushBack_elems, he, List.replicate_succ']
    rcases ih with ⟨_, hc, hn0⟩ | ⟨_, hn1, hlo, hhi, k, hk⟩
    · have hcap1 : (Vec.pushN x (n + 1)).cap = 1 := by
        show (Vec.pushBack (Vec.pushN x n) x).cap = 1
        rw [pushBack_cap_full (Vec.pushN x n) x (by omega), hsize, if_pos hn0]
      exact Or.inr ⟨helems, by omega, by omega, by omega, 0,
        by rw [hcap1, pow_zero]⟩
    · rcases Nat.lt_or_ge n (Vec.pushN x n).cap with hsp | hfu
      · have hcap1 : (Vec.pushN x (n + 1)).cap = (Vec.pushN x n).cap := by
          show (Vec.pushBack (Vec.pushN x n) x).cap = _
          exact pushBack_cap_spare _ x (by omega)
        exact Or.inr ⟨helems, by omega, by omega, by omega, k,
          by rw [hcap1, hk]⟩
      · have hfull : (Vec.pushN x n).cap = n := by omega
        have hcap1 : (Vec.pushN x (n + 1)).cap = n * 2 := by
          show (Vec.pushBack (Vec.pushN x n) x).cap = _
          rw [pushBack_cap_full _ x (by omega), hsize, if_neg (by omega)]
        refine Or.inr ⟨helems, by omega, by omega, by omega, k + 1, ?_⟩
        rw [hcap1, pow_succ, ← hk, hfull]

/-- C5: an append performed when size equals capacity doubles the capacity,
with minimum new capacity 1 when growing from capacity 0; consequently a
sequence of n PushBack calls from a default-constructed vector reaches
capacity exactly 2 to the power clog 2 n (the doubling sequence 1, 2, 4,
8, ...), which never exceeds twice the minimum required. -/
theorem growth_policy (v : Vec α) (x : α) (n : Nat) (hn : 1 ≤ n)
    (hfull : v.size = v.cap) :
    (Vec.pushBack v x).cap = (if v.cap = 0 then 1 else 2 * v.cap) ∧
    (Vec.pushN x n).size = n ∧
    (Vec.pushN x n).cap = 2 ^ Nat.clog 2 n ∧
    (Vec.pushN x n).cap ≤ 2 * n := by
  rcases pushN_invariant x n with ⟨he, hc, hn0⟩ | ⟨he, _, hlo, hhi, k, hk⟩
  · omega
  refine ⟨?_, by simp [Vec.size, he], ?_, by omega⟩
  · rw [pushBack_cap_full v x hfull.symm.le, hfull]
    rcases Nat.eq_zero_or_pos v.cap with h0 | hpos
    · rw [if_pos h0, if_pos h0]
    · rw [if_neg (by omega), if_neg (by omega)]
      omega
  · have hklog : k = Nat.clog 2 n := by
      have hle : Nat.clog 2 n ≤ k :=
        (Nat.le_pow_iff_clog_le one_lt_two).mp (hk ▸ hlo)
      have hge : k ≤ Nat.clog 2 n := by
        by_contra hcon
        have h1 : Nat.clog 2 n + 1 ≤ k := by omega
        have h2 : (2 : Nat) ^ (Nat.clog 2 n + 1) ≤ 2 ^ k :=
          Nat.pow_le_pow_right (by omega) h1
        have h3 : n ≤ 2 ^ Nat.clog 2 n := Nat.le_pow_clog one_lt_two n
        have h4 : (2 : Nat) ^ (Nat.clog 2 n + 1) = 2 * 2 ^ Nat.clog 2 n := by
          rw [pow_succ]
          omega
        omega
      omega
    rw [hk, hklog]

/-- C5 witness: three pushes from empty reach size 3 with capacity at most
6, and a push on a full vector of capacity 2 doubles it. -/
theorem growth_policy_witness :
    (Vec.pushBack (⟨[1, 2], 2⟩ : Vec Nat) 7).cap
      = (if (⟨[1, 2], 2⟩ : Vec Nat).cap = 0 then 1 else 2 * (⟨[1, 2], 2⟩ : Vec Nat).cap) ∧
    (Vec.pushN (0 : Nat) 3).size = 3 ∧
    (Vec.pushN (0 : Nat) 3).cap ≤ 2 * 3 :=
  ⟨(growth_policy (⟨[1, 2], 2⟩ : Vec Nat) 7 3 (by decide) (by decide)).1,
   (growth_policy (⟨[1, 2], 2⟩ : Vec Nat) 7 3 (by decide) (by decide)).2.1,
   (growth_policy (⟨[1, 2], 2⟩ : Vec Nat) 7 3 (by decide) (by decide)).2.2.2⟩

/-- C6: after copy assignment from a distinct vector b, the size equals the
size of b and the elements are exactly those of b; when the size of b fits
in the current capacity no reallocation happens, so the capacity is
unchanged. -/
theorem copy_assign_spec (a b : Vec α) :
    (Vec.copyAssign false a b).size = b.size ∧
    (Vec.copyAssign false a b).elems = b.elems ∧
    (b.size ≤ a.cap → (Vec.copyAssign false a b).cap = a.cap) := by
  unfold Vec.copyAssign Vec.copyConstruct
  refine ⟨?_, ?_, ?_⟩ <;> simp only [Bool.false_eq_true, if_false]
  · split
    · rfl
    · split <;> rfl
  · split
    · rfl
    · split <;> rfl
  · intro hfits
    split
    · omega
    · split <;> rfl

/-- C6 witness: assigning a two-element vector into one of capacity 3. -/
theorem copy_assign_spec_witness :
    (Vec.copyAssign false (⟨[1, 2, 3], 3⟩ : Vec Nat) ⟨[8, 9], 2⟩).elems = [8, 9] ∧
    (Vec.copyAssign false (⟨[1, 2, 3], 3⟩ : Vec Nat) ⟨[8, 9], 2⟩).cap = 3 :=
  ⟨(copy_assign_spec (⟨[1, 2, 3], 3⟩ : Vec Nat) ⟨[8, 9], 2⟩).2.1,
   (copy_assign_spec (⟨[1, 2, 3], 3⟩ : Vec Nat) ⟨[8, 9], 2⟩).2.2 (by decide)⟩

/-- C7: Resize to n truncates when n is below the size, leaving the first n
element values unchanged; appends value-initialized elements when n is above
the size, leaving the existing values unchanged; is the identity when n
equals the size; and in every case the resulting size is n. -/
theorem resize_spec (d : α) (v : Vec α) (n : Nat) (hwf : v.Wf) :
    (Vec.resize d v n).size = n ∧
    (n < v.size →
      (Vec.resize d v n).elems = v.elems.take n ∧
      (Vec.resize d v n).cap = v.cap) ∧
    (v.size ≤ n →
      (Vec.resize d v n).elems = v.elems ++ List.replicate (n - v.size) d) ∧
    (n = v.size → Vec.resize d v n = v) := by
  have hv2 : v.elems.length ≤ v.cap := hwf
  have hs : v.size = v.elems.length := rfl
  refine ⟨?_, ?_, ?_, ?_⟩
  · unfold Vec.resize Vec.reserve
    split
    · show (v.elems.take n).length = n
      simp [List.length_take]
      omega
    · split
      · show (v.elems ++ List.replicate (n - v.size) d).length = n
        simp [Vec.size]
        omega
      · show (v.elems ++ List.replicate (n - v.size) d).length = n
        simp [Vec.size]
        omega
  · intro hlt
    unfold Vec.resize
    rw [if_pos hlt]
    exact ⟨rfl, rfl⟩
  · intro hge
    unfold Vec.resize Vec.reserve
    rw [if_neg (by omega)]
    split <;> rfl
  · intro heq
    unfold Vec.resize Vec.reserve
    rw [if_neg (by omega), if_pos (by omega)]
    have h0 : n - v.size = 0 := by omega
    rw [h0]
    simp

/-- C7 witness: resizing [1, 2] with capacity 4 up to 3 and down to 1. -/
theorem resize_spec_witness :
    (Vec.resize (0 : Nat) (⟨[1, 2], 4⟩ : Vec Nat) 3).size = 3 ∧
    (Vec.resize (0 : Nat) (⟨[1, 2], 4⟩ : Vec Nat) 1).elems = [1] :=
  ⟨(resize_spec 0 (⟨[1, 2], 4⟩ : Vec Nat) 3 (by decide)).1,
   ((resize_spec 0 (⟨[1, 2], 4⟩ : Vec Nat) 1 (by decide)).2.1 (by decide)).1⟩

/-- C8: Reserve with a target at most the capacity changes nothing; with a
larger target it sets the capacity to exactly that target while keeping the
size and all element values; Reserve 10 on the empty vector yields capacity
10, size 0, and no constructed element. -/
theorem reserve_spec (v : Vec α) (n : Nat) :
    (n ≤ v.cap → Vec.reserve v n = v) ∧
    (v.cap < n →
      (Vec.reserve v n).cap = n ∧
      (Vec.reserve v n).elems = v.elems ∧
      (Vec.reserve v n).size = v.size) ∧
    Vec.reserve (Vec.mk0 : Vec α) 10 = ⟨[], 10⟩ := by
  refine ⟨?_, ?_, rfl⟩
  · intro h
    unfold Vec.reserve
    rw [if_pos h]
  · intro h
    unfold Vec.reserve
    rw [if_neg (by omega)]
    exact ⟨rfl, rfl, rfl⟩

/-- C8 witness: Reserve 3 on capacity 5 is the identity and Reserve 7 on
capacity 2 gives capacity 7. -/
theorem reserve_spec_witness :
    Vec.reserve (⟨[1], 5⟩ : Vec Nat) 3 = ⟨[1], 5⟩ ∧
    (Vec.reserve (⟨[1], 2⟩ : Vec Nat) 7).cap = 7 :=
  ⟨(reserve_spec (⟨[1], 5⟩ : Vec Nat) 3).1 (by decide),
   ((reserve_spec (⟨[1], 2⟩ : Vec Nat) 7).2.1 (by decide)).1⟩

/-! Well-formedness of the result of each public operation. -/

lemma wf_mkSized (d : α) (n : Nat) : (Vec.mkSized d n).Wf := by
  simp [Vec.Wf, Vec.mkSized, Vec.size]

lemma wf_copyConstruct (v : Vec α) : (Vec.copyConstruct v).Wf := by
  simp [Vec.Wf, Vec.copyConstruct, Vec.size]

lemma wf_copyAssign (al : Bool) (v w : Vec α) (hv : v.Wf) :
    (Vec.copyAssign al v w).Wf := by
  unfold Vec.copyAssign
  split
  · exact hv
  · split
    · exact wf_copyConstruct w
    · rw [ite_self]
      rename_i hle
      show w.elems.length ≤ v.cap
      simp [Vec.size] at hle
      omega

lemma wf_reserve (v : Vec α) (n : Nat) (hv : v.Wf) : (Vec.reserve v n).Wf := by
  have hv2 : v.elems.length ≤ v.cap := hv
  unfold Vec.reserve
  split
  · exact hv
  · show v.elems.length ≤ n
    rename_i h
    omega

lemma wf_resize (d : α) (v : Vec α) (n : Nat) (hv : v.Wf) :
    (Vec.resize d v n).Wf := by
  have hv2 : v.elems.length ≤ v.cap := hv
  have hs : v.size = v.elems.length := rfl
  unfold Vec.resize Vec.reserve
  split
  · show (v.elems.take n).length ≤ v.cap
    simp [List.length_take]
    omega
  · split
    · show (v.elems ++ List.replicate (n - v.size) d).length ≤ v.cap
      simp [Vec.size]
      omega
    · show (v.elems ++ List.replicate (n - v.size) d).length ≤ n
      simp [Vec.size]
      omega

lemma wf_emplace (v : Vec α) (p : Nat) (x : α) (hv : v.Wf) :
    (Vec.emplace v p x).Wf := by
  have hv2 : v.elems.length ≤ v.cap := hv
  have hs : v.size = v.elems.length := rfl
  have hlen := length_insertAt v.elems p x
  unfold Vec.emplace
  split
  · show (v.elems.take p ++ x :: v.elems.drop p).length
      ≤ if v.size = 0 then 1 else v.size * 2
    rw [hlen]
    split <;> omega
  · show (v.elems.take p ++ x :: v.elems.drop p).length ≤ v.cap
    rw [hlen]
    rename_i h
    omega

lemma wf_popBack (v : Vec α) (hv : v.Wf) : (Vec.popBack v).Wf := by
  have hv2 : v.elems.length ≤ v.cap := hv
  unfold Vec.popBack
  split
  · show v.elems.dropLast.length ≤ v.cap
    simp [List.length_dropLast]
    omega
  · exact hv

lemma wf_erase (v : Vec α) (p : Nat) (hv : v.Wf) : (Vec.erase v p).Wf := by
  have hv2 : v.elems.length ≤ v.cap := hv
  show (v.elems.take p ++ v.elems.drop (p + 1)).length ≤ v.cap
  simp [List.length_take, List.length_drop]
  omega

/-- C9: every public operation of the container preserves the state
invariant that the live count is between 0 and the capacity; slots [0, size)
being live and slots [size, cap) being raw is encoded by the state itself,
which lists exactly the live elements. -/
theorem invariant_preserved (al : Bool) (v w : Vec α) (d x : α) (n p : Nat)
    (hv : v.Wf) (hw : w.Wf) :
    (Vec.mk0 : Vec α).Wf ∧ (Vec.mkSized d n).Wf ∧ (Vec.copyConstruct v).Wf ∧
    (Vec.moveConstruct v).1.Wf ∧ (Vec.moveConstruct v).2.Wf ∧
    (Vec.copyAssign al v w).Wf ∧
    (Vec.moveAssign al v w).1.Wf ∧ (Vec.moveAssign al v w).2.Wf ∧
    (Vec.reserve v n).Wf ∧ (Vec.resize d v n).Wf ∧
    (Vec.pushBack v x).Wf ∧ (Vec.popBack v).Wf ∧
    (Vec.emplace v p x).Wf ∧ (Vec.insert v p x).Wf ∧ (Vec.erase v p).Wf ∧
    (Vec.swap v w).1.Wf ∧ (Vec.swap v w).2.Wf := by
  refine ⟨Nat.le_refl 0, wf_mkSized d n, wf_copyConstruct v, hv, Nat.le_refl 0,
    wf_copyAssign al v w hv, ?_, ?_, wf_reserve v n hv, wf_resize d v n hv,
    wf_emplace v v.size x hv, wf_popBack v hv, wf_emplace v p x hv,
    wf_emplace v p x hv, wf_erase v p hv, hw, hv⟩
  · unfold Vec.moveAssign
    split
    · exact hv
    · exact hw
  · unfold Vec.moveAssign
    split
    · exact hw
    · exact hv

/-- C9 witness: the invariant after an Emplace and an Erase on the vector
[1] with capacity 2. -/
theorem invariant_preserved_witness :
    (Vec.emplace (⟨[1], 2⟩ : Vec Nat) 0 5).Wf ∧
    (Vec.erase (⟨[1], 2⟩ : Vec Nat) 0).Wf :=
  ⟨(invariant_preserved false (⟨[1], 2⟩ : Vec Nat) ⟨[], 1⟩ 0 5 3 0
      (by decide) (by decide)).2.2.2.2.2.2.2.2.2.2.2.2.1,
   (invariant_preserved false (⟨[1], 2⟩ : Vec Nat) ⟨[], 1⟩ 0 5 3 0
      (by decide) (by decide)).2.2.2.2.2.2.2.2.2.2.2.2.2.2.1⟩

/-- C10: self-assignment is a no-op. The aliasing guard of the source
returns immediately (first two conjuncts); moreover even the non-aliased
paths applied to the vector itself leave it unchanged (last two). -/
theorem self_assign_noop (v : Vec α) (hv : v.Wf) :
    Vec.copyAssign true v v = v ∧
    Vec.moveAssign true v v = (v, v) ∧
    Vec.copyAssign false v v = v ∧
    Vec.moveAssign false v v = (v, v) := by
  have hv2 : v.elems.length ≤ v.cap := hv
  have hs : v.size = v.elems.length := rfl
  refine ⟨rfl, rfl, ?_, rfl⟩
  unfold Vec.copyAssign
  rw [if_neg (by decide), if_neg (by omega), ite_self]

/-- C10 witness: self copy assignment of the vector [4, 5] with capacity 3,
through the aliasing guard and through the element-wise path. -/
theorem self_assign_noop_witness :
    Vec.copyAssign true (⟨[4, 5], 3⟩ : Vec Nat) ⟨[4, 5], 3⟩ = ⟨[4, 5], 3⟩ ∧
    Vec.copyAssign false (⟨[4, 5], 3⟩ : Vec Nat) ⟨[4, 5], 3⟩ = ⟨[4, 5], 3⟩ :=
  ⟨(self_assign_noop (⟨[4, 5], 3⟩ : Vec Nat) (by decide)).1,
   (self_assign_noop (⟨[4, 5], 3⟩ : Vec Nat) (by decide)).2.2.1⟩

end AdvancedVector
